import Mathlib

/-!
Verification development for the fashion-product analytics dashboard
(`src/main.py`).  The pandas dataframe is embedded as an ordered list of
rows over a fixed set of optional columns; cell values are strings,
rationals, or the missing marker (pandas `NaN`).  The functions
`load_and_process_data`, `apply_filters`, `create_overview_metrics`, the
cross-tabulation of `create_visualizations`, and the control flow of
`main` are translated directly from the source.
-/

namespace Aur

/-- A cell of the table: a string, a number (pandas floats are modelled as
rationals), or the missing marker `NaN`. -/
inductive Value where
  | vstr : String → Value
  | vnum : ℚ → Value
  | vmissing : Value
deriving DecidableEq, Repr

/-- One row of the product table, giving the cell of each known column.
When the enclosing table lacks a column, that field of the row is
irrelevant (the `Table` flags below record which columns exist). -/
structure Row where
  name : Value
  brand_name : Value
  category_main : Value
  category_sub : Value
  color : Value
  price_point : Value
  availability : Value
  price_amount : Value
deriving DecidableEq, Repr

/-- A dataframe: which of the known columns are present, plus the ordered
rows. -/
structure Table where
  hasName : Bool
  hasBrandName : Bool
  hasCategoryMain : Bool
  hasCategorySub : Bool
  hasColor : Bool
  hasPricePoint : Bool
  hasAvailability : Bool
  hasPriceAmount : Bool
  rows : List Row
deriving DecidableEq, Repr

/-- The empty dataframe, used as the default of heap lookups. -/
def emptyTable : Table :=
  ⟨false, false, false, false, false, false, false, false, []⟩

instance : Inhabited Table := ⟨emptyTable⟩

/-- The effect of `pd.to_numeric(col, errors=coerce)` on one cell: numbers
stay, strings are parsed by the numeric parser `parseNum` and become `NaN`
when unparseable, `NaN` stays `NaN`. -/
def coercePrice (parseNum : String → Option ℚ) : Value → Value
  | .vnum q => .vnum q
  | .vstr s =>
    match parseNum s with
    | some q => .vnum q
    | none => .vmissing
  | .vmissing => .vmissing

/-- The effect of `col.fillna(Unknown)` on one cell. -/
def fillUnknown : Value → Value
  | .vmissing => .vstr "Unknown"
  | v => v

/-- The six categorical columns are filled with the sentinel and
`price_amount` is coerced, each only when its column is present;
this is the per-row action of the cleaning loop of
`load_and_process_data`. -/
def cleanRow (df : Table) (parseNum : String → Option ℚ) (r : Row) : Row :=
  { r with
    price_amount :=
      if df.hasPriceAmount then coercePrice parseNum r.price_amount
      else r.price_amount
    brand_name :=
      if df.hasBrandName then fillUnknown r.brand_name else r.brand_name
    category_main :=
      if df.hasCategoryMain then fillUnknown r.category_main
      else r.category_main
    category_sub :=
      if df.hasCategorySub then fillUnknown r.category_sub
      else r.category_sub
    color := if df.hasColor then fillUnknown r.color else r.color
    price_point :=
      if df.hasPricePoint then fillUnknown r.price_point else r.price_point
    availability :=
      if df.hasAvailability then fillUnknown r.availability
      else r.availability }

/-- `load_and_process_data`: the external CSV parser either fails (the
`except` branch reports the error and returns `None`, modelled as `none`)
or yields a raw table, which is cleaned column by column. -/
def load_and_process_data (parseNum : String → Option ℚ)
    (parsed : Except String Table) : Option Table :=
  match parsed with
  | .error _ => none
  | .ok df => some { df with rows := df.rows.map (cleanRow df parseNum) }

/-- The filter dictionary built by `create_filters`: a field is `none`
when the key is absent from the dictionary. -/
structure Filters where
  brand : Option String
  category_main : Option String
  category_sub : Option String
  price_range : Option (ℚ × ℚ)
  price_point : Option String
  color : Option (List String)
  availability : Option String
deriving Repr

/-- The empty filter dictionary. -/
def noFilters : Filters := ⟨none, none, none, none, none, none, none⟩

/-- Pandas `series == v` on one cell: `NaN` and numbers never equal a
string. -/
def valueEqStr (cell : Value) (v : String) : Bool :=
  match cell with
  | .vstr s => s == v
  | _ => false

/-- Pandas `series.isin(sel)` on one cell for a list of strings. -/
def valueIsin (cell : Value) (sel : List String) : Bool :=
  match cell with
  | .vstr s => sel.contains s
  | _ => false

/-- Whether a cell holds a string. -/
def valueIsStr : Value → Bool
  | .vstr _ => true
  | _ => false

/-- Pandas `series >= q` on one cell: `NaN` compares false. -/
def valueGe (cell : Value) (q : ℚ) : Bool :=
  match cell with
  | .vnum p => q ≤ p
  | _ => false

/-- Pandas `series <= q` on one cell: `NaN` compares false. -/
def valueLe (cell : Value) (q : ℚ) : Bool :=
  match cell with
  | .vnum p => p ≤ q
  | _ => false

/-- One `if filters.get(k) and filters[k] != All:` block of
`apply_filters` for a single-choice filter.  `sel = none` means the key is
absent; the empty string is falsy in Python, so it also skips the block;
otherwise the block runs and indexing a column that the table lacks
raises a `KeyError`.  The result `none` means the block did not rebind
`filtered_df`. -/
def singleChoiceStep (sel : Option String) (hasCol : Bool)
    (colName : String) (get : Row → Value) (t : Table) :
    Except String (Option Table) :=
  match sel with
  | none => .ok none
  | some v =>
    if v == "" || v == "All" then .ok none
    else if hasCol then
      .ok (some { t with rows := t.rows.filter (fun r => valueEqStr (get r) v) })
    else .error ("KeyError: " ++ colName)

/-- The brand block of `apply_filters`. -/
def brandStep (fs : Filters) (t : Table) : Except String (Option Table) :=
  singleChoiceStep fs.brand t.hasBrandName "brand_name"
    (fun r => r.brand_name) t

/-- The main-category block of `apply_filters`. -/
def categoryMainStep (fs : Filters) (t : Table) :
    Except String (Option Table) :=
  singleChoiceStep fs.category_main t.hasCategoryMain "category_main"
    (fun r => r.category_main) t

/-- The sub-category block of `apply_filters`. -/
def categorySubStep (fs : Filters) (t : Table) :
    Except String (Option Table) :=
  singleChoiceStep fs.category_sub t.hasCategorySub "category_sub"
    (fun r => r.category_sub) t

/-- The price-range block of `apply_filters`: a present range tuple is
always truthy, and the block itself checks that `price_amount` is a
column; comparing a string cell against a number raises a `TypeError` in
pandas. -/
def priceStep (fs : Filters) (t : Table) : Except String (Option Table) :=
  match fs.price_range with
  | none => .ok none
  | some (min_price, max_price) =>
    if t.hasPriceAmount then
      if t.rows.any (fun r => valueIsStr r.price_amount) then
        .error "TypeError: comparison of str and float"
      else
        .ok (some { t with rows := t.rows.filter (fun r =>
          valueGe r.price_amount min_price &&
          valueLe r.price_amount max_price) })
    else .ok none

/-- The price-point block of `apply_filters`. -/
def pricePointStep (fs : Filters) (t : Table) :
    Except String (Option Table) :=
  singleChoiceStep fs.price_point t.hasPricePoint "price_point"
    (fun r => r.price_point) t

/-- The multi-select color block of `apply_filters`: an empty selection is
falsy in Python and a selection containing `All` skips the block;
otherwise rows whose color is in the selection are kept. -/
def colorStep (fs : Filters) (t : Table) : Except String (Option Table) :=
  match fs.color with
  | none => .ok none
  | some sel =>
    if sel.isEmpty || sel.contains "All" then .ok none
    else if t.hasColor then
      .ok (some { t with rows := t.rows.filter (fun r => valueIsin r.color sel) })
    else .error "KeyError: color"

/-- The availability block of `apply_filters`. -/
def availabilityStep (fs : Filters) (t : Table) :
    Except String (Option Table) :=
  singleChoiceStep fs.availability t.hasAvailability "availability"
    (fun r => r.availability) t

/-- The seven filter blocks of `apply_filters`, in source order. -/
def filterSteps (fs : Filters) : List (Table → Except String (Option Table)) :=
  [brandStep fs, categoryMainStep fs, categorySubStep fs, priceStep fs,
   pricePointStep fs, colorStep fs, availabilityStep fs]

/-- Run the filter blocks in order on `filtered_df`; a block returning
`none` leaves the current table bound, a block returning `some` rebinds
it, and a raised error aborts. -/
def runSteps (steps : List (Table → Except String (Option Table)))
    (t : Table) : Except String Table :=
  match steps with
  | [] => .ok t
  | s :: rest =>
    match s t with
    | .error e => .error e
    | .ok none => runSteps rest t
    | .ok (some t') => runSteps rest t'

/-- `apply_filters`: copy the input (value semantics make the copy the
identity here) and run the seven blocks. -/
def apply_filters (df : Table) (fs : Filters) : Except String Table :=
  runSteps (filterSteps fs) df

/-- The numeric values of the `price_amount` column, `NaN` entries
skipped, as pandas `min`/`max`/`mean` see them. -/
def priceVals (t : Table) : List ℚ :=
  t.rows.filterMap (fun r =>
    match r.price_amount with
    | .vnum q => some q
    | _ => none)

/-- `price_min` of `create_filters`: the column minimum, or `0` when every
value is `NaN`. -/
def price_min (t : Table) : ℚ := (priceVals t).min?.getD 0

/-- `price_max` of `create_filters`: the column maximum, or `1000` when
every value is `NaN`. -/
def price_max (t : Table) : ℚ := (priceVals t).max?.getD 1000

/-- The filter dictionary produced by `create_filters` when the user
leaves every widget unconstrained: each present single-choice widget at
`All`, the color multi-select at its default `[All]`, and the price
slider at its full value `(price_min, price_max)`.  A key exists exactly
when its column exists, as in the source. -/
def create_filters_all (df : Table) : Filters :=
  { brand := if df.hasBrandName then some "All" else none
    category_main := if df.hasCategoryMain then some "All" else none
    category_sub := if df.hasCategorySub then some "All" else none
    price_range :=
      if df.hasPriceAmount then some (price_min df, price_max df) else none
    price_point := if df.hasPricePoint then some "All" else none
    color := if df.hasColor then some ["All"] else none
    availability := if df.hasAvailability then some "All" else none }

/-- The value shown by one `st.metric` call: a count, a dollar amount, or
the `N/A` string. -/
inductive MetricVal where
  | count : ℕ → MetricVal
  | money : ℚ → MetricVal
  | na : MetricVal
deriving DecidableEq, Repr

/-- `df[brand_name].nunique()`: the number of distinct non-`NaN` values. -/
def nuniqueBrand (df : Table) : ℕ :=
  (((df.rows.map (fun r => r.brand_name)).filter
    (fun v => !(v == Value.vmissing))).dedup).length

/-- `df[price_amount].mean()`: `NaN` entries are skipped and the mean of
an all-`NaN` column is `NaN`, modelled as `none`. -/
def meanPrice (df : Table) : Option ℚ :=
  let vs := priceVals df
  if vs.isEmpty then none else some (vs.sum / (vs.length : ℚ))

/-- Substring test on character lists, for `str.contains`. -/
def charsHave : List Char → List Char → Bool
  | pat, [] => pat.isEmpty
  | pat, c :: rest =>
    ((c :: rest).take pat.length == pat) || charsHave pat rest

/-- `series.str.contains(in stock, case=False, na=False)` on one cell:
non-string cells give `NaN`, turned to `False` by `na=False`. -/
def inStockCell (cell : Value) : Bool :=
  match cell with
  | .vstr s => charsHave "in stock".toList s.toLower.toList
  | _ => false

/-- The number of rows counted by the `In Stock` metric. -/
def inStockCount (df : Table) : ℕ :=
  (df.rows.filter (fun r => inStockCell r.availability)).length

/-- `create_overview_metrics`: the labelled metrics rendered, in source
order; a metric guarded by a missing column is simply not rendered. -/
def create_overview_metrics (df : Table) : List (String × MetricVal) :=
  [("Total Products", MetricVal.count df.rows.length)] ++
  (if df.hasBrandName then
    [("Unique Brands", MetricVal.count (nuniqueBrand df))] else []) ++
  (if df.hasPriceAmount then
    [("Average Price",
      match meanPrice df with
      | some q => MetricVal.money q
      | none => MetricVal.na)] else []) ++
  (if df.hasAvailability then
    [("In Stock", MetricVal.count (inStockCount df))] else [])

/-- Whether `pd.crosstab` keeps a row: both key cells must be
non-`NaN`. -/
def crosstabKeep (r : Row) : Bool :=
  !(r.category_main == Value.vmissing) && !(r.price_point == Value.vmissing)

instance (priority := 2000) : BEq (Value × Value) := instBEqOfDecidableEq

/-- The key pairs fed to `pd.crosstab(df[category_main],
df[price_point])`, one per surviving row. -/
def crosstabPairs (df : Table) : List (Value × Value) :=
  (df.rows.filter crosstabKeep).map (fun r => (r.category_main, r.price_point))

/-- The `category_price_data` cross-tabulation of `create_visualizations`:
each distinct (category, price point) pair with its row count. -/
def category_price_data (df : Table) : List ((Value × Value) × ℕ) :=
  (crosstabPairs df).dedup.map (fun k => (k, (crosstabPairs df).count k))

/-- The sum over all cells of the cross-tabulation. -/
def crosstabTotal (df : Table) : ℕ :=
  ((category_price_data df).map (fun c => c.2)).sum

/-- A heap of dataframe objects, to make the mutation discipline of
`apply_filters` observable: Python names are addresses into the heap. -/
def heapGet (h : List Table) (a : ℕ) : Table := h.getD a emptyTable

/-- Run the filter blocks with explicit allocation: a block that rebinds
`filtered_df` allocates the new dataframe at a fresh address and never
writes an existing cell; a skipped block leaves the address alone. -/
def runStepsHeap (steps : List (Table → Except String (Option Table)))
    (h : List Table) (a : ℕ) : Except String (List Table × ℕ) :=
  match steps with
  | [] => .ok (h, a)
  | s :: rest =>
    match s (heapGet h a) with
    | .error e => .error e
    | .ok none => runStepsHeap rest h a
    | .ok (some t') => runStepsHeap rest (h ++ [t']) h.length

/-- `apply_filters` over the heap: `df.copy()` allocates a fresh copy of
the input at address `h.length`, then the blocks run on the copy. -/
def apply_filters_heap (h : List Table) (a : ℕ) (fs : Filters) :
    Except String (List Table × ℕ) :=
  runStepsHeap (filterSteps fs) (h ++ [heapGet h a]) h.length

/-- What `main` renders after the upload widget: nothing yet, the load
error, a crash of the script on an uncaught exception, or the dashboard
(success count over the loaded table, metrics and shown rows over the
filtered one, and whether the visualizations ran). -/
inductive MainView where
  | promptUpload : MainView
  | loadError : MainView
  | crashed : String → MainView
  | dashboard : ℕ → List (String × MetricVal) → Bool → List Row → MainView
deriving Repr

/-- The control flow of `main` below the upload widget, with the widget
state (the filter selections) passed in explicitly. -/
def main_run (parseNum : String → Option ℚ)
    (upload : Option (Except String Table)) (fs : Filters) : MainView :=
  match upload with
  | none => .promptUpload
  | some parsed =>
    match load_and_process_data parseNum parsed with
    | none => .loadError
    | some df =>
      match apply_filters df fs with
      | .error e => .crashed e
      | .ok filtered_df =>
        .dashboard df.rows.length (create_overview_metrics filtered_df)
          (decide (0 < filtered_df.rows.length)) filtered_df.rows

/-! ### Concrete tables and filter sets used by witnesses and
counterexamples -/

/-- A row carrying only a `price_amount` cell. -/
def rowP (q : Value) : Row :=
  ⟨.vmissing, .vmissing, .vmissing, .vmissing, .vmissing, .vmissing,
   .vmissing, q⟩

/-- A row carrying only a `color` cell. -/
def rowC (c : Value) : Row :=
  ⟨.vmissing, .vmissing, .vmissing, .vmissing, c, .vmissing, .vmissing,
   .vmissing⟩

/-- A row carrying `category_main` and `price_point` cells. -/
def rowCP (c p : Value) : Row :=
  ⟨.vmissing, .vmissing, c, .vmissing, .vmissing, p, .vmissing, .vmissing⟩

/-- The scenario table whose `price_amount` column is `[10, 20, 30]`. -/
def T3 : Table :=
  ⟨false, false, false, false, false, false, false, true,
   [rowP (.vnum 10), rowP (.vnum 20), rowP (.vnum 30)]⟩

/-- A table with a numeric price row and a missing-price row. -/
def badT : Table :=
  ⟨false, false, false, false, false, false, false, true,
   [rowP (.vnum 10), rowP .vmissing]⟩

/-- A one-row table having only a `color` column. -/
def Tc : Table :=
  ⟨false, false, false, false, true, false, false, false,
   [rowC (.vstr "red")]⟩

/-- A table with a `price_amount` column whose only value is missing. -/
def Tallmiss : Table :=
  ⟨false, false, false, false, false, false, false, true,
   [rowP .vmissing]⟩

/-- A table with `category_main` and `price_point` columns. -/
def T7 : Table :=
  ⟨false, false, true, false, false, true, false, false,
   [rowCP (.vstr "Dresses") (.vstr "Low"),
    rowCP (.vstr "Dresses") (.vstr "Low"),
    rowCP (.vstr "Shoes") (.vstr "High"),
    rowCP .vmissing (.vstr "Low")]⟩

/-- A raw upload exercising the cleaner: a missing brand and a
non-numeric price string. -/
def T2raw : Table :=
  ⟨true, true, true, true, true, true, true, true,
   [⟨.vstr "shirt", .vmissing, .vmissing, .vmissing, .vmissing, .vmissing,
     .vmissing, .vstr "abc"⟩]⟩

/-- The cleaned form of `T2raw` under the trivial numeric parser. -/
def T2clean : Table :=
  { T2raw with rows := T2raw.rows.map (cleanRow T2raw (fun _ => none)) }

/-- A filter dictionary holding only a price range. -/
def onlyPrice (mn mx : ℚ) : Filters :=
  { noFilters with price_range := some (mn, mx) }

/-- A filter dictionary holding only a color multi-selection. -/
def onlyColor (sel : List String) : Filters :=
  { noFilters with color := some sel }

/-- A filter dictionary holding only a brand selection. -/
def onlyBrand (v : String) : Filters :=
  { noFilters with brand := some v }

/-! ### Helper lemmas -/

lemma foldl_min_le_init (l : List ℚ) (a : ℚ) : l.foldl min a ≤ a := by
  induction l generalizing a with
  | nil => exact le_refl a
  | cons b t ih => exact le_trans (ih (min a b)) (min_le_left a b)

lemma foldl_min_le_mem (l : List ℚ) (a q : ℚ) (h : q ∈ l) :
    l.foldl min a ≤ q := by
  induction l generalizing a with
  | nil => cases h
  | cons b t ih =>
    rcases List.mem_cons.mp h with rfl | hq
    · exact le_trans (foldl_min_le_init t (min a q)) (min_le_right a q)
    · exact ih (min a b) hq

lemma min?_getD_le (l : List ℚ) (q : ℚ) (h : q ∈ l) (d : ℚ) :
    l.min?.getD d ≤ q := by
  cases l with
  | nil => cases h
  | cons a t =>
    show t.foldl min a ≤ q
    rcases List.mem_cons.mp h with rfl | hq
    · exact foldl_min_le_init t q
    · exact foldl_min_le_mem t a q hq

lemma le_foldl_max_init (l : List ℚ) (a : ℚ) : a ≤ l.foldl max a := by
  induction l generalizing a with
  | nil => exact le_refl a
  | cons b t ih => exact le_trans (le_max_left a b) (ih (max a b))

lemma le_foldl_max_mem (l : List ℚ) (a q : ℚ) (h : q ∈ l) :
    q ≤ l.foldl max a := by
  induction l generalizing a with
  | nil => cases h
  | cons b t ih =>
    rcases List.mem_cons.mp h with rfl | hq
    · exact le_trans (le_max_right a q) (le_foldl_max_init t (max a q))
    · exact ih (max a b) hq

lemma le_max?_getD (l : List ℚ) (q : ℚ) (h : q ∈ l) (d : ℚ) :
    q ≤ l.max?.getD d := by
  cases l with
  | nil => cases h
  | cons a t =>
    show q ≤ t.foldl max a
    rcases List.mem_cons.mp h with rfl | hq
    · exact le_foldl_max_init t q
    · exact le_foldl_max_mem t a q hq

/-- What every filter block preserves: the column set, and rows only ever
disappear. -/
def tableLe (t' t : Table) : Prop :=
  t'.hasName = t.hasName ∧ t'.hasBrandName = t.hasBrandName ∧
  t'.hasCategoryMain = t.hasCategoryMain ∧
  t'.hasCategorySub = t.hasCategorySub ∧ t'.hasColor = t.hasColor ∧
  t'.hasPricePoint = t.hasPricePoint ∧
  t'.hasAvailability = t.hasAvailability ∧
  t'.hasPriceAmount = t.hasPriceAmount ∧
  ∀ r ∈ t'.rows, r ∈ t.rows

lemma tableLe_refl (t : Table) : tableLe t t :=
  ⟨rfl, rfl, rfl, rfl, rfl, rfl, rfl, rfl, fun _ hr => hr⟩

lemma tableLe_trans {t₁ t₂ t₃ : Table} (h₂ : tableLe t₂ t₁)
    (h₃ : tableLe t₃ t₂) : tableLe t₃ t₁ := by
  obtain ⟨a1, a2, a3, a4, a5, a6, a7, a8, a9⟩ := h₂
  obtain ⟨b1, b2, b3, b4, b5, b6, b7, b8, b9⟩ := h₃
  exact ⟨b1.trans a1, b2.trans a2, b3.trans a3, b4.trans a4, b5.trans a5,
    b6.trans a6, b7.trans a7, b8.trans a8, fun r hr => a9 r (b9 r hr)⟩

lemma tableLe_filter (t : Table) (p : Row → Bool) :
    tableLe { t with rows := t.rows.filter p } t :=
  ⟨rfl, rfl, rfl, rfl, rfl, rfl, rfl, rfl,
   fun _ hr => List.mem_of_mem_filter hr⟩

lemma singleChoiceStep_ok {sel : Option String} {hasCol : Bool}
    {colName : String} {get : Row → Value} {t : Table} {o : Option Table}
    (h : singleChoiceStep sel hasCol colName get t = .ok o) :
    tableLe (o.getD t) t := by
  cases sel with
  | none =>
    simp only [singleChoiceStep] at h
    cases h
    exact tableLe_refl t
  | some v =>
    simp only [singleChoiceStep] at h
    by_cases h1 : (v == "" || v == "All") = true
    · rw [if_pos h1] at h
      cases h
      exact tableLe_refl t
    · rw [if_neg h1] at h
      by_cases h2 : hasCol = true
      · rw [if_pos h2] at h
        cases h
        exact tableLe_filter t _
      · rw [if_neg h2] at h
        cases h

lemma priceStep_ok {fs : Filters} {t : Table} {o : Option Table}
    (h : priceStep fs t = .ok o) : tableLe (o.getD t) t := by
  cases hpr : fs.price_range with
  | none =>
    simp only [priceStep, hpr] at h
    cases h
    exact tableLe_refl t
  | some p =>
    obtain ⟨mn, mx⟩ := p
    simp only [priceStep, hpr] at h
    by_cases h1 : t.hasPriceAmount = true
    · rw [if_pos h1] at h
      by_cases h2 :
          (t.rows.any fun r => valueIsStr r.price_amount) = true
      · rw [if_pos h2] at h
        cases h
      · rw [if_neg h2] at h
        cases h
        exact tableLe_filter t _
    · rw [if_neg h1] at h
      cases h
      exact tableLe_refl t

lemma colorStep_ok {fs : Filters} {t : Table} {o : Option Table}
    (h : colorStep fs t = .ok o) : tableLe (o.getD t) t := by
  cases hc : fs.color with
  | none =>
    simp only [colorStep, hc] at h
    cases h
    exact tableLe_refl t
  | some sel =>
    simp only [colorStep, hc] at h
    by_cases h1 : (sel.isEmpty || sel.contains "All") = true
    · rw [if_pos h1] at h
      cases h
      exact tableLe_refl t
    · rw [if_neg h1] at h
      by_cases h2 : t.hasColor = true
      · rw [if_pos h2] at h
        cases h
        exact tableLe_filter t _
      · rw [if_neg h2] at h
        cases h

lemma step_ok_of_mem {fs : Filters} {s : Table → Except String (Option Table)}
    (hs : s ∈ filterSteps fs) {t : Table} {o : Option Table}
    (h : s t = .ok o) : tableLe (o.getD t) t := by
  simp only [filterSteps, List.mem_cons, List.not_mem_nil, or_false] at hs
  rcases hs with rfl | rfl | rfl | rfl | rfl | rfl | rfl
  · exact singleChoiceStep_ok h
  · exact singleChoiceStep_ok h
  · exact singleChoiceStep_ok h
  · exact priceStep_ok h
  · exact singleChoiceStep_ok h
  · exact colorStep_ok h
  · exact singleChoiceStep_ok h

lemma runSteps_ok_tableLe {steps : List (Table → Except String (Option Table))}
    (hsteps : ∀ s ∈ steps, ∀ t o, s t = .ok o → tableLe (o.getD t) t) :
    ∀ {t out : Table}, runSteps steps t = .ok out → tableLe out t := by
  induction steps with
  | nil =>
    intro t out h
    cases h
    exact tableLe_refl t
  | cons s rest ih =>
    intro t out h
    unfold runSteps at h
    cases hst : s t with
    | error e =>
      rw [hst] at h
      cases h
    | ok o =>
      rw [hst] at h
      cases o with
      | none =>
        exact ih (fun s hs => hsteps s (List.mem_cons_of_mem _ hs)) h
      | some t' =>
        have h1 : tableLe t' t := hsteps s (List.mem_cons_self _ _) t (some t') hst
        exact tableLe_trans h1
          (ih (fun s hs => hsteps s (List.mem_cons_of_mem _ hs)) h)

lemma runSteps_append (l₁ l₂ : List (Table → Except String (Option Table)))
    (t : Table) :
    runSteps (l₁ ++ l₂) t =
      match runSteps l₁ t with
      | .error e => .error e
      | .ok t' => runSteps l₂ t' := by
  induction l₁ generalizing t with
  | nil => rfl
  | cons s rest ih =>
    cases hst : s t with
    | error e => simp only [List.cons_append, runSteps, hst]
    | ok o =>
      cases o with
      | none =>
        simp only [List.cons_append, runSteps, hst]
        exact ih t
      | some t' =>
        simp only [List.cons_append, runSteps, hst]
        exact ih t'

lemma fillUnknown_ne_vmissing (v : Value) : fillUnknown v ≠ .vmissing := by
  cases v <;> simp [fillUnknown]

lemma coercePrice_not_str (parseNum : String → Option ℚ) (v : Value) :
    valueIsStr (coercePrice parseNum v) = false := by
  cases v with
  | vstr s =>
    unfold coercePrice
    cases hps : parseNum s <;> simp [valueIsStr, hps]
  | vnum q => rfl
  | vmissing => rfl

lemma crosstab_total_eq (df : Table) :
    crosstabTotal df = (df.rows.filter crosstabKeep).length := by
  unfold crosstabTotal category_price_data
  rw [List.map_map]
  calc ((crosstabPairs df).dedup.map
        ((fun c : (Value × Value) × ℕ => c.2) ∘
          (fun k => (k, (crosstabPairs df).count k)))).sum
      = (crosstabPairs df).length := List.sum_map_count_dedup_eq_length _
    _ = (df.rows.filter crosstabKeep).length := List.length_map _ _

end Aur

deriving instance DecidableEq for Except

namespace Aur

/-! ### Claims -/

/-- C3: with a `price_range` filter of `[mn, mx]` active over a cleaned
`price_amount` column, `apply_filters` keeps (in order) exactly the rows
whose `price_amount` is a number `q` with `mn ≤ q ∧ q ≤ mx`, both bounds
inclusive; a missing `price_amount` satisfies no comparison. -/
theorem c3_theorem (df : Table) (mn mx : ℚ)
    (hcol : df.hasPriceAmount = true)
    (hnum : ∀ r ∈ df.rows, valueIsStr r.price_amount = false) :
    apply_filters df (onlyPrice mn mx) =
      .ok { df with rows := df.rows.filter (fun r =>
        valueGe r.price_amount mn && valueLe r.price_amount mx) } ∧
    ∀ r : Row,
      r ∈ df.rows.filter (fun r =>
        valueGe r.price_amount mn && valueLe r.price_amount mx) ↔
      r ∈ df.rows ∧ ∃ q, r.price_amount = Value.vnum q ∧ mn ≤ q ∧ q ≤ mx := by
  constructor
  · have hany : (df.rows.any fun r => valueIsStr r.price_amount) = false := by
      rw [List.any_eq_false]
      intro r hr
      rw [hnum r hr]
      exact Bool.false_ne_true
    simp only [apply_filters, filterSteps, onlyPrice, noFilters, runSteps,
      brandStep, categoryMainStep, categorySubStep, priceStep,
      pricePointStep, colorStep, availabilityStep, singleChoiceStep, hcol,
      hany, if_true, Bool.false_eq_true, if_false]
  · intro r
    rw [List.mem_filter]
    constructor
    · rintro ⟨hr, hp⟩
      refine ⟨hr, ?_⟩
      cases hv : r.price_amount with
      | vnum q =>
        rw [hv] at hp
        simp only [valueGe, valueLe, Bool.and_eq_true, decide_eq_true_eq]
          at hp
        exact ⟨q, rfl, hp.1, hp.2⟩
      | vstr s => rw [hv] at hp; cases hp
      | vmissing => rw [hv] at hp; cases hp
    · rintro ⟨hr, q, hq, hle1, hle2⟩
      refine ⟨hr, ?_⟩
      rw [hq]
      simp only [valueGe, valueLe, Bool.and_eq_true, decide_eq_true_eq]
      exact ⟨hle1, hle2⟩

/-- C3 witness: on the table with `price_amount = [10, 20, 30]`, the
range `(15, 30)` keeps exactly the rows with prices 20 and 30. -/
theorem c3_witness :
    apply_filters T3 (onlyPrice 15 30) =
      .ok { T3 with rows := [rowP (.vnum 20), rowP (.vnum 30)] } := by
  have h := (c3_theorem T3 15 30 rfl (by decide)).1
  rw [h]
  decide

/-- C4 (amended): a color multi-selection containing `All` imposes no
constraint, and so does the empty selection (it is falsy, so the filter
block is skipped); a non-empty selection without `All` keeps, in order,
exactly the rows whose color is a string belonging to the selection. -/
theorem c4_theorem :
    (∀ (df : Table) (sel : List String), sel.contains "All" = true →
      apply_filters df (onlyColor sel) = .ok df) ∧
    (∀ df : Table, apply_filters df (onlyColor []) = .ok df) ∧
    (∀ (df : Table) (sel : List String), sel ≠ [] →
      sel.contains "All" = false → df.hasColor = true →
      apply_filters df (onlyColor sel) =
        .ok { df with rows := df.rows.filter (fun r =>
          valueIsin r.color sel) } ∧
      ∀ r : Row,
        r ∈ df.rows.filter (fun r => valueIsin r.color sel) ↔
        r ∈ df.rows ∧ ∃ s, r.color = Value.vstr s ∧ s ∈ sel) := by
  refine ⟨?_, ?_, ?_⟩
  · intro df sel hAll
    simp only [apply_filters, filterSteps, onlyColor, noFilters, runSteps,
      brandStep, categoryMainStep, categorySubStep, priceStep,
      pricePointStep, colorStep, availabilityStep, singleChoiceStep, hAll,
      Bool.or_true, if_true]
  · intro df
    simp only [apply_filters, filterSteps, onlyColor, noFilters, runSteps,
      brandStep, categoryMainStep, categorySubStep, priceStep,
      pricePointStep, colorStep, availabilityStep, singleChoiceStep,
      List.isEmpty_nil, Bool.true_or, if_true]
  · intro df sel hne hAll hcol
    have hempty : sel.isEmpty = false := by
      cases sel with
      | nil => exact absurd rfl hne
      | cons a t => rfl
    constructor
    · simp only [apply_filters, filterSteps, onlyColor, noFilters, runSteps,
        brandStep, categoryMainStep, categorySubStep, priceStep,
        pricePointStep, colorStep, availabilityStep, singleChoiceStep,
        hempty, hAll, Bool.or_self, Bool.false_eq_true, if_false, hcol,
        if_true]
    · intro r
      rw [List.mem_filter]
      constructor
      · rintro ⟨hr, hp⟩
        refine ⟨hr, ?_⟩
        cases hv : r.color with
        | vstr s =>
          rw [hv] at hp
          simp only [valueIsin] at hp
          exact ⟨s, rfl, List.elem_iff.mp hp⟩
        | vnum q => rw [hv] at hp; cases hp
        | vmissing => rw [hv] at hp; cases hp
      · rintro ⟨hr, s, hs, hmem⟩
        refine ⟨hr, ?_⟩
        rw [hs]
        simp only [valueIsin]
        exact List.elem_iff.mpr hmem

/-- C4 counterexample: with the empty color selection (no `All` in it),
`apply_filters` keeps the whole table, while the claim as stated would
keep only rows whose color lies in the empty set, i.e. none. -/
theorem c4_counterexample :
    apply_filters Tc (onlyColor []) = .ok Tc ∧
    Tc.rows ≠ [] ∧
    Tc.rows.filter (fun r => valueIsin r.color []) = [] := by
  refine ⟨?_, ?_, ?_⟩ <;> decide

/-- C4 witness: concrete runs of the three amended cases. -/
theorem c4_witness :
    apply_filters Tc (onlyColor ["All", "blue"]) = .ok Tc ∧
    apply_filters Tc (onlyColor []) = .ok Tc ∧
    apply_filters Tc (onlyColor ["red", "blue"]) =
      .ok { Tc with rows := Tc.rows.filter (fun r =>
        valueIsin r.color ["red", "blue"]) } := by
  refine ⟨c4_theorem.1 Tc ["All", "blue"] (by decide),
    c4_theorem.2.1 Tc,
    (c4_theorem.2.2 Tc ["red", "blue"] (by decide) (by decide) rfl).1⟩

/-- C5 (amended): the price-range block checks for its column and is a
no-op when `price_amount` is absent, but an active single-choice filter
whose column is absent raises a `KeyError` instead of being a no-op. -/
theorem c5_theorem :
    (∀ (df : Table) (mn mx : ℚ), df.hasPriceAmount = false →
      apply_filters df (onlyPrice mn mx) = .ok df) ∧
    (∀ (df : Table) (v : String), (v == "") = false → (v == "All") = false →
      df.hasBrandName = false →
      apply_filters df (onlyBrand v) = .error "KeyError: brand_name") := by
  constructor
  · intro df mn mx hcol
    simp only [apply_filters, filterSteps, onlyPrice, noFilters, runSteps,
      brandStep, categoryMainStep, categorySubStep, priceStep,
      pricePointStep, colorStep, availabilityStep, singleChoiceStep, hcol,
      Bool.false_eq_true, if_false]
  · intro df v h1 h2 hcol
    simp only [apply_filters, filterSteps, onlyBrand, noFilters, runSteps,
      brandStep, categoryMainStep, categorySubStep, priceStep,
      pricePointStep, colorStep, availabilityStep, singleChoiceStep, h1, h2,
      Bool.or_self, Bool.false_eq_true, if_false, hcol]
    rfl

/-- C5 counterexample: a brand filter over a table with no `brand_name`
column fails with a `KeyError` rather than leaving the table unchanged. -/
theorem c5_counterexample :
    apply_filters Tc (onlyBrand "Nike") = .error "KeyError: brand_name" ∧
    apply_filters Tc (onlyBrand "Nike") ≠ .ok Tc := by
  refine ⟨?_, ?_⟩ <;> decide

/-- C5 witness: concrete runs of both amended cases. -/
theorem c5_witness :
    apply_filters Tc (onlyPrice 0 5) = .ok Tc ∧
    apply_filters Tc (onlyBrand "Nike") = .error "KeyError: brand_name" :=
  ⟨c5_theorem.1 Tc 0 5 rfl, c5_theorem.2 Tc "Nike" rfl rfl rfl⟩

lemma singleChoiceStep_all (b : Bool) (hasCol : Bool) (colName : String)
    (get : Row → Value) (t : Table) :
    singleChoiceStep (if b then some "All" else none) hasCol colName get t =
      .ok none := by
  cases b
  · rfl
  · rfl

lemma colorStep_all {fs : Filters} (b : Bool) (t : Table)
    (hc : fs.color = if b then some ["All"] else none) :
    colorStep fs t = .ok none := by
  cases b
  · simp only [colorStep, hc]
    rfl
  · simp only [colorStep, hc]
    rfl

/-- C1 (amended): the all-`All` filter set built from the widget defaults
returns the input unchanged, provided that whenever the `price_amount`
column exists every row holds an actual number there — the full-range
price slider is genuinely applied and silently drops rows whose
`price_amount` is missing. -/
theorem c1_theorem (df : Table)
    (hclean : df.hasPriceAmount = true →
      ∀ r ∈ df.rows, ∃ q, r.price_amount = Value.vnum q) :
    apply_filters df (create_filters_all df) = .ok df := by
  have hb : brandStep (create_filters_all df) df = .ok none :=
    singleChoiceStep_all df.hasBrandName df.hasBrandName "brand_name"
      (fun r => r.brand_name) df
  have hcm : categoryMainStep (create_filters_all df) df = .ok none :=
    singleChoiceStep_all df.hasCategoryMain df.hasCategoryMain
      "category_main" (fun r => r.category_main) df
  have hcs : categorySubStep (create_filters_all df) df = .ok none :=
    singleChoiceStep_all df.hasCategorySub df.hasCategorySub "category_sub"
      (fun r => r.category_sub) df
  have hpp : pricePointStep (create_filters_all df) df = .ok none :=
    singleChoiceStep_all df.hasPricePoint df.hasPricePoint "price_point"
      (fun r => r.price_point) df
  have hav : availabilityStep (create_filters_all df) df = .ok none :=
    singleChoiceStep_all df.hasAvailability df.hasAvailability
      "availability" (fun r => r.availability) df
  have hco : colorStep (create_filters_all df) df = .ok none :=
    colorStep_all df.hasColor df rfl
  cases hP : df.hasPriceAmount with
  | false =>
    have hpr : priceStep (create_filters_all df) df = .ok none := by
      have hrange : (create_filters_all df).price_range = none := by
        simp [create_filters_all, hP]
      simp only [priceStep, hrange]
    simp only [apply_filters, filterSteps, runSteps, hb, hcm, hcs, hpr, hpp,
      hco, hav]
  | true =>
    have hany : (df.rows.any fun r => valueIsStr r.price_amount) = false := by
      rw [List.any_eq_false]
      intro r hr
      obtain ⟨q, hq⟩ := hclean hP r hr
      rw [hq]
      simp [valueIsStr]
    have hfilter : df.rows.filter (fun r =>
        valueGe r.price_amount (price_min df) &&
        valueLe r.price_amount (price_max df)) = df.rows := by
      rw [List.filter_eq_self]
      intro r hr
      obtain ⟨q, hq⟩ := hclean hP r hr
      have hqmem : q ∈ priceVals df := by
        unfold priceVals
        exact List.mem_filterMap.mpr ⟨r, hr, by rw [hq]⟩
      rw [hq]
      simp only [valueGe, valueLe, Bool.and_eq_true, decide_eq_true_eq]
      exact ⟨min?_getD_le _ q hqmem 0, le_max?_getD _ q hqmem 1000⟩
    have hpr : priceStep (create_filters_all df) df = .ok (some df) := by
      have hrange : (create_filters_all df).price_range =
          some (price_min df, price_max df) := by
        simp [create_filters_all, hP]
      simp only [priceStep, hrange, hP, if_true, hany, Bool.false_eq_true,
        if_false, hfilter]
      rw [← hP]
    simp only [apply_filters, filterSteps, runSteps, hb, hcm, hcs, hpr, hpp,
      hco, hav]

/-- C1 counterexample: on a table holding prices `[10, NaN]`, the
all-`All` filter set (full slider range `[10, 10]`) does not return the
input: the missing-price row is dropped. -/
theorem c1_counterexample :
    apply_filters badT (create_filters_all badT) ≠ .ok badT ∧
    apply_filters badT (create_filters_all badT) =
      .ok { badT with rows := [rowP (.vnum 10)] } := by
  refine ⟨?_, ?_⟩ <;> decide

/-- C1 witness: the all-`All` filter set is the identity on the fully
numeric table `T3`. -/
theorem c1_witness :
    apply_filters T3 (create_filters_all T3) = .ok T3 :=
  c1_theorem T3 (by
    intro _ r hr
    have hrows : T3.rows =
        [rowP (.vnum 10), rowP (.vnum 20), rowP (.vnum 30)] := rfl
    rw [hrows] at hr
    rcases List.mem_cons.mp hr with rfl | hr
    · exact ⟨10, rfl⟩
    rcases List.mem_cons.mp hr with rfl | hr
    · exact ⟨20, rfl⟩
    rcases List.mem_cons.mp hr with rfl | hr
    · exact ⟨30, rfl⟩
    cases hr)

/-- C2: whatever table the parser returns, after cleaning each present
categorical column holds no missing entry, and a present `price_amount`
column never holds a string. -/
theorem c2_theorem (parseNum : String → Option ℚ) (raw df : Table)
    (h : load_and_process_data parseNum (.ok raw) = some df) :
    (df.hasBrandName = true →
      ∀ r ∈ df.rows, r.brand_name ≠ Value.vmissing) ∧
    (df.hasCategoryMain = true →
      ∀ r ∈ df.rows, r.category_main ≠ Value.vmissing) ∧
    (df.hasCategorySub = true →
      ∀ r ∈ df.rows, r.category_sub ≠ Value.vmissing) ∧
    (df.hasColor = true → ∀ r ∈ df.rows, r.color ≠ Value.vmissing) ∧
    (df.hasPricePoint = true →
      ∀ r ∈ df.rows, r.price_point ≠ Value.vmissing) ∧
    (df.hasAvailability = true →
      ∀ r ∈ df.rows, r.availability ≠ Value.vmissing) ∧
    (df.hasPriceAmount = true →
      ∀ r ∈ df.rows, valueIsStr r.price_amount = false) := by
  have hdf : df = { raw with rows := raw.rows.map (cleanRow raw parseNum) } := by
    simpa [load_and_process_data] using h.symm
  subst hdf
  refine ⟨?_, ?_, ?_, ?_, ?_, ?_, ?_⟩
  · intro hflag r hr
    obtain ⟨r0, _, rfl⟩ := List.mem_map.mp hr
    have hflag' : raw.hasBrandName = true := hflag
    simp only [cleanRow, hflag', if_true]
    exact fillUnknown_ne_vmissing _
  · intro hflag r hr
    obtain ⟨r0, _, rfl⟩ := List.mem_map.mp hr
    have hflag' : raw.hasCategoryMain = true := hflag
    simp only [cleanRow, hflag', if_true]
    exact fillUnknown_ne_vmissing _
  · intro hflag r hr
    obtain ⟨r0, _, rfl⟩ := List.mem_map.mp hr
    have hflag' : raw.hasCategorySub = true := hflag
    simp only [cleanRow, hflag', if_true]
    exact fillUnknown_ne_vmissing _
  · intro hflag r hr
    obtain ⟨r0, _, rfl⟩ := List.mem_map.mp hr
    have hflag' : raw.hasColor = true := hflag
    simp only [cleanRow, hflag', if_true]
    exact fillUnknown_ne_vmissing _
  · intro hflag r hr
    obtain ⟨r0, _, rfl⟩ := List.mem_map.mp hr
    have hflag' : raw.hasPricePoint = true := hflag
    simp only [cleanRow, hflag', if_true]
    exact fillUnknown_ne_vmissing _
  · intro hflag r hr
    obtain ⟨r0, _, rfl⟩ := List.mem_map.mp hr
    have hflag' : raw.hasAvailability = true := hflag
    simp only [cleanRow, hflag', if_true]
    exact fillUnknown_ne_vmissing _
  · intro hflag r hr
    obtain ⟨r0, _, rfl⟩ := List.mem_map.mp hr
    have hflag' : raw.hasPriceAmount = true := hflag
    simp only [cleanRow, hflag', if_true]
    exact coercePrice_not_str _ _

/-- C2 witness: cleaning the one-row upload `T2raw` (missing brand,
non-numeric price string) yields a row with the brand filled and a
non-string price. -/
theorem c2_witness :
    (cleanRow T2raw (fun _ => none)
      ⟨.vstr "shirt", .vmissing, .vmissing, .vmissing, .vmissing,
       .vmissing, .vmissing, .vstr "abc"⟩).brand_name ≠ Value.vmissing ∧
    valueIsStr (cleanRow T2raw (fun _ => none)
      ⟨.vstr "shirt", .vmissing, .vmissing, .vmissing, .vmissing,
       .vmissing, .vmissing, .vstr "abc"⟩).price_amount = false := by
  have h := c2_theorem (fun _ => none) T2raw T2clean rfl
  exact ⟨h.1 rfl _ (by decide), h.2.2.2.2.2.2 rfl _ (by decide)⟩

lemma mem_metrics_label (df : Table) (x : String × MetricVal)
    (hx : x ∈ create_overview_metrics df) :
    x.1 = "Total Products" ∨ x.1 = "Unique Brands" ∨
    (x.1 = "Average Price" ∧ df.hasPriceAmount = true) ∨
    x.1 = "In Stock" := by
  unfold create_overview_metrics at hx
  rcases List.mem_append.mp hx with hx | hx
  · rcases List.mem_append.mp hx with hx | hx
    · rcases List.mem_append.mp hx with hx | hx
      · left
        rw [List.mem_singleton.mp hx]
      · right; left
        cases hB : df.hasBrandName with
        | false => rw [hB] at hx; simp at hx
        | true =>
          rw [hB] at hx
          simp only [if_true] at hx
          rw [List.mem_singleton.mp hx]
    · right; right; left
      cases hP : df.hasPriceAmount with
      | false => rw [hP] at hx; simp at hx
      | true =>
        rw [hP] at hx
        simp only [if_true] at hx
        exact ⟨by rw [List.mem_singleton.mp hx], rfl⟩
  · right; right; right
    cases hA : df.hasAvailability with
    | false => rw [hA] at hx; simp at hx
    | true =>
      rw [hA] at hx
      simp only [if_true] at hx
      rw [List.mem_singleton.mp hx]

/-- C6 (amended): computing the overview metrics never fails, but when
the table has no `price_amount` column the mean-price metric is not
rendered at all (no `Average Price` entry, `N/A` or otherwise); the `N/A`
value appears exactly when the column exists and every value in it is
missing. -/
theorem c6_theorem :
    (∀ df : Table, df.hasPriceAmount = false →
      ∀ v : MetricVal, ("Average Price", v) ∉ create_overview_metrics df) ∧
    (∀ df : Table, df.hasPriceAmount = true → priceVals df = [] →
      ("Average Price", MetricVal.na) ∈ create_overview_metrics df) := by
  constructor
  · intro df h v hmem
    rcases mem_metrics_label df _ hmem with h1 | h1 | ⟨h1, h2⟩ | h1
    · exact absurd (show ("Average Price" : String) = "Total Products" from h1)
        (by decide)
    · exact absurd (show ("Average Price" : String) = "Unique Brands" from h1)
        (by decide)
    · rw [h] at h2
      exact absurd h2 (by decide)
    · exact absurd (show ("Average Price" : String) = "In Stock" from h1)
        (by decide)
  · intro df h hvals
    unfold create_overview_metrics
    have hmean : meanPrice df = none := by
      simp [meanPrice, hvals]
    simp only [h, if_true, hmean]
    exact List.mem_append.mpr (Or.inl (List.mem_append.mpr
      (Or.inr (List.mem_singleton.mpr rfl))))

/-- C6 counterexample: on a table without a `price_amount` column the
overview metrics contain no `Average Price` entry at all, so no `N/A` is
reported there. -/
theorem c6_counterexample :
    ("Average Price", MetricVal.na) ∉ create_overview_metrics Tc := by
  decide

/-- C6 witness: `Average Price` is absent for the price-less table `Tc`
and reads `N/A` for the all-missing-price table `Tallmiss`. -/
theorem c6_witness :
    ("Average Price", MetricVal.money 5) ∉ create_overview_metrics Tc ∧
    ("Average Price", MetricVal.na) ∈ create_overview_metrics Tallmiss :=
  ⟨c6_theorem.1 Tc rfl (MetricVal.money 5), c6_theorem.2 Tallmiss rfl rfl⟩

/-- C7: the sum over all cells of the cross-tabulation over
`(category_main, price_point)` equals the number of rows whose
`category_main` and `price_point` are both non-missing. -/
theorem c7_theorem (df : Table) (_h1 : df.hasCategoryMain = true)
    (_h2 : df.hasPricePoint = true) :
    crosstabTotal df = (df.rows.filter (fun r =>
      decide (r.category_main ≠ Value.vmissing ∧
        r.price_point ≠ Value.vmissing))).length := by
  rw [crosstab_total_eq]
  congr 1
  apply List.filter_congr
  intro r _
  by_cases hc : r.category_main = Value.vmissing <;>
    by_cases hp : r.price_point = Value.vmissing <;>
    simp [crosstabKeep, hc, hp]

/-- C7 witness: on `T7` (four rows, one with a missing category) the
cross-tabulation cells sum to the three rows with both keys present. -/
theorem c7_witness :
    crosstabTotal T7 = (T7.rows.filter (fun r =>
      decide (r.category_main ≠ Value.vmissing ∧
        r.price_point ≠ Value.vmissing))).length ∧
    crosstabTotal T7 = 3 :=
  ⟨c7_theorem T7 rfl rfl, by decide⟩

/-- C8: a failed CSV parse makes the loader report the error and return
no table, and `main` renders only the load-error path: no metrics, no
charts, no data table are computed for that upload. -/
theorem c8_theorem : ∀ (e : String) (parseNum : String → Option ℚ)
    (fs : Filters),
    load_and_process_data parseNum (.error e) = none ∧
    main_run parseNum (some (.error e)) fs = .loadError :=
  fun _ _ _ => ⟨rfl, rfl⟩

lemma heapGet_append_of_lt {h ext : List Table} {a : ℕ}
    (ha : a < h.length) : heapGet (h ++ ext) a = heapGet h a :=
  List.getD_append _ _ _ _ ha

lemma runStepsHeap_ok {steps : List (Table → Except String (Option Table))} :
    ∀ (h : List Table) (a : ℕ) (h' : List Table) (a' : ℕ),
      a < h.length → runStepsHeap steps h a = .ok (h', a') →
      (∃ ext, h' = h ++ ext) ∧ a' < h'.length ∧ a ≤ a' ∧
      runSteps steps (heapGet h a) = .ok (heapGet h' a') := by
  induction steps with
  | nil =>
    intro h a h' a' ha hrun
    unfold runStepsHeap at hrun
    cases hrun
    exact ⟨⟨[], (List.append_nil h).symm⟩, ha, le_refl a, rfl⟩
  | cons s rest ih =>
    intro h a h' a' ha hrun
    unfold runStepsHeap at hrun
    cases hst : s (heapGet h a) with
    | error e =>
      rw [hst] at hrun
      cases hrun
    | ok o =>
      rw [hst] at hrun
      cases o with
      | none =>
        obtain ⟨hext, hlt, hle, hrunSteps⟩ := ih h a h' a' ha hrun
        refine ⟨hext, hlt, hle, ?_⟩
        simp only [runSteps, hst]
        exact hrunSteps
      | some t' =>
        have ha1 : h.length < (h ++ [t']).length := by
          rw [List.length_append]
          exact Nat.lt_succ_self _
        obtain ⟨⟨ext1, hext1⟩, hlt, hle, hrunSteps⟩ :=
          ih (h ++ [t']) h.length h' a' ha1 hrun
        refine ⟨⟨[t'] ++ ext1, by rw [hext1, List.append_assoc]⟩, hlt,
          le_trans (le_of_lt ha) hle, ?_⟩
        simp only [runSteps, hst]
        have hget : heapGet (h ++ [t']) h.length = t' := by
          unfold heapGet
          rw [List.getD_append_right _ _ _ _ (le_refl _), Nat.sub_self]
          rfl
        rw [← hget]
        exact hrunSteps

/-- C9: `apply_filters` never mutates its input dataframe: in the
heap-explicit semantics (where `df.copy()` and each rebinding of
`filtered_df` allocate fresh objects) the cell the caller passed in is
unchanged after the call, the result lives at a different address, and
its value is exactly what the pure `apply_filters` computes from the
original table. -/
theorem c9_theorem (h : List Table) (a : ℕ) (fs : Filters)
    (h' : List Table) (a' : ℕ) (ha : a < h.length)
    (hrun : apply_filters_heap h a fs = .ok (h', a')) :
    heapGet h' a = heapGet h a ∧ a' ≠ a ∧
    apply_filters (heapGet h a) fs = .ok (heapGet h' a') := by
  unfold apply_filters_heap at hrun
  have ha0 : h.length < (h ++ [heapGet h a]).length := by
    rw [List.length_append]
    exact Nat.lt_succ_self _
  obtain ⟨⟨ext, hext⟩, _hlt, hle, hrunSteps⟩ :=
    runStepsHeap_ok (h ++ [heapGet h a]) h.length h' a' ha0 hrun
  have hcopy : heapGet (h ++ [heapGet h a]) h.length = heapGet h a := by
    unfold heapGet
    rw [List.getD_append_right _ _ _ _ (le_refl _), Nat.sub_self]
    rfl
  refine ⟨?_, ?_, ?_⟩
  · rw [hext, List.append_assoc]
    exact heapGet_append_of_lt ha
  · exact ne_of_gt (lt_of_lt_of_le ha hle)
  · rw [hcopy] at hrunSteps
    exact hrunSteps

/-- C9 witness: a one-cell heap holding `T3`, filtered with the empty
filter set: the copy lives at address 1, address 0 is untouched. -/
theorem c9_witness :
    heapGet [T3, T3] 0 = heapGet [T3] 0 ∧ (1 : ℕ) ≠ 0 ∧
    apply_filters (heapGet [T3] 0) noFilters = .ok (heapGet [T3, T3] 1) :=
  c9_theorem [T3] 0 noFilters [T3, T3] 1 (by decide) rfl

lemma runSteps_ok_tableLe_pre {fs : Filters} {t out : Table}
    (h : runSteps [brandStep fs, categoryMainStep fs, categorySubStep fs] t =
      .ok out) : tableLe out t := by
  refine runSteps_ok_tableLe ?_ h
  intro s hs t1 o hst
  simp only [List.mem_cons, List.not_mem_nil, or_false] at hs
  rcases hs with rfl | rfl | rfl
  · exact singleChoiceStep_ok hst
  · exact singleChoiceStep_ok hst
  · exact singleChoiceStep_ok hst

lemma runSteps_ok_tableLe_post {fs : Filters} {t out : Table}
    (h : runSteps [pricePointStep fs, colorStep fs, availabilityStep fs] t =
      .ok out) : tableLe out t := by
  refine runSteps_ok_tableLe ?_ h
  intro s hs t1 o hst
  simp only [List.mem_cons, List.not_mem_nil, or_false] at hs
  rcases hs with rfl | rfl | rfl
  · exact singleChoiceStep_ok hst
  · exact colorStep_ok hst
  · exact singleChoiceStep_ok hst

/-- C10: whenever a `price_range` filter is present in the filter set
and the table has a `price_amount` column, every row with a missing
`price_amount` is absent from any successful filter result — whatever the
chosen bounds, the full data range included. -/
theorem c10_theorem (df : Table) (fs : Filters) (mn mx : ℚ) (out : Table)
    (hr : fs.price_range = some (mn, mx))
    (hcol : df.hasPriceAmount = true)
    (hok : apply_filters df fs = .ok out) :
    ∀ r ∈ out.rows, r.price_amount ≠ Value.vmissing := by
  have hsplit : filterSteps fs =
      [brandStep fs, categoryMainStep fs, categorySubStep fs] ++
      priceStep fs ::
        [pricePointStep fs, colorStep fs, availabilityStep fs] := rfl
  unfold apply_filters at hok
  rw [hsplit, runSteps_append] at hok
  cases hpre : runSteps
      [brandStep fs, categoryMainStep fs, categorySubStep fs] df with
  | error e =>
    rw [hpre] at hok
    cases hok
  | ok t1 =>
    rw [hpre] at hok
    have ht1 : tableLe t1 df := runSteps_ok_tableLe_pre hpre
    have ht1col : t1.hasPriceAmount = true := by
      obtain ⟨_, _, _, _, _, _, _, h8, _⟩ := ht1
      rw [h8]
      exact hcol
    cases hstr : (t1.rows.any fun r => valueIsStr r.price_amount) with
    | true =>
      have hps : priceStep fs t1 =
          .error "TypeError: comparison of str and float" := by
        simp only [priceStep, hr, ht1col, if_true, hstr, if_pos]
      simp only [runSteps, hps] at hok
      cases hok
    | false =>
      have hps : priceStep fs t1 = .ok (some { t1 with
          rows := t1.rows.filter (fun r =>
            valueGe r.price_amount mn && valueLe r.price_amount mx) }) := by
        simp only [priceStep, hr, ht1col, if_true, hstr,
          Bool.false_eq_true, if_false]
      simp only [runSteps, hps] at hok
      have hout : tableLe out { t1 with rows := t1.rows.filter (fun r =>
          valueGe r.price_amount mn && valueLe r.price_amount mx) } :=
        runSteps_ok_tableLe_post hok
      intro r hrmem
      obtain ⟨_, _, _, _, _, _, _, _, hmem⟩ := hout
      have hr2 : r ∈ t1.rows.filter (fun r =>
          valueGe r.price_amount mn && valueLe r.price_amount mx) :=
        hmem r hrmem
      have hfil : (valueGe r.price_amount mn &&
          valueLe r.price_amount mx) = true := (List.mem_filter.mp hr2).2
      cases hv : r.price_amount with
      | vnum q => simp
      | vstr s => simp
      | vmissing =>
        rw [hv] at hfil
        simp [valueGe] at hfil

/-- C10 witness: filtering prices `[10, NaN]` by the full range `[0, 100]`
drops the `NaN` row, whose cell indeed is not missing in the result. -/
theorem c10_witness :
    (rowP (Value.vnum 10)).price_amount ≠ Value.vmissing :=
  c10_theorem badT (onlyPrice 0 100) 0 100
    { badT with rows := [rowP (.vnum 10)] } rfl rfl (by decide)
    (rowP (Value.vnum 10)) (by decide)

end Aur
